import Mathlib

/-!
Shallow embedding of `crossword.py` (duck57/crossword): a crossword layout
engine over a sparse grid.  Python `dict[Position, Cell]` is modelled as an
insertion-ordered association list with unique keys, Python strings as
`List Char`, Python exceptions as `Except PyErr`, and `random.choice` /
`random.randint` as an explicit `Oracle` parameter.  Every definition is a
direct transcription of the corresponding Python function, including its
bugs (cell-flag overwrite in `place_a_word`, `pick_random_empty_cell`
returning `None` on a non-empty grid, `current_position` never updated in
the numbering loop, unorderable `Direction` values crashing `sorted`).
-/

namespace CwSpec

/-- Python exceptions that the program can raise, as an error enumeration.
`cellOccupied` is the program's own `CellOccupiedError`; `valueError` is the
`ValueError` raised by `Word.__init__`; `attributeError`, `indexError` and
`typeError` model the built-in exceptions the interpreter raises on
`None.direction`, out-of-range `list[0]` / `list[-1]`, and unorderable
`sorted` keys respectively. -/
inductive PyErr where
  | cellOccupied
  | valueError
  | attributeError
  | indexError
  | typeError
deriving DecidableEq, Repr

/-- Position: integer (row, col) pair, `crossword.py` lines 15-34. -/
structure Position where
  row : Int
  col : Int
deriving DecidableEq, Repr

/-- Componentwise addition, `Position.__add__` with a `Position` argument. -/
def Position.add (p q : Position) : Position := ⟨p.row + q.row, p.col + q.col⟩

instance : Add Position := ⟨Position.add⟩

/-- Componentwise subtraction, `Position.__sub__` with a `Position` argument. -/
def Position.sub (p q : Position) : Position := ⟨p.row - q.row, p.col - q.col⟩

instance : Sub Position := ⟨Position.sub⟩

/-- Translation by a scalar, `Position.__add__` with an `int` argument. -/
def Position.addInt (p : Position) (k : Int) : Position := ⟨p.row + k, p.col + k⟩

/-- Direction: one of ACROSS, DOWN, `crossword.py` lines 37-45. -/
inductive Direction where
  | ACROSS
  | DOWN
deriving DecidableEq, Repr

/-- The unit-step offset carried by each `Direction` member. -/
def Direction.val : Direction → Position
  | .ACROSS => ⟨0, 1⟩
  | .DOWN => ⟨1, 0⟩

/-- `Direction.__mul__`: scale the unit step by an index. -/
def Direction.mul (d : Direction) (k : Nat) : Position :=
  ⟨d.val.row * k, d.val.col * k⟩

/-- Bearing: an anchor Position plus a Direction, `crossword.py` lines 48-50. -/
structure Bearing where
  position : Position
  direction : Direction
deriving DecidableEq, Repr

/-- Word object, `crossword.py` lines 53-61: normalized text, hint,
placement result `start`, `required` flag and puzzle `number`. -/
structure Word where
  word : List Char
  hint : List Char
  start : Option Bearing
  required : Bool
  number : Int
deriving DecidableEq, Repr

/-- ASCII uppercasing of one character, modelling `str.upper` on the
alphabet the program actually handles. -/
def upperChar (c : Char) : Char :=
  if 'a' ≤ c ∧ c ≤ 'z' then Char.ofNat (c.toNat - 32) else c

/-- `str.upper` on a Python string given as a character list. -/
def pyUpper (s : List Char) : List Char := s.map upperChar

/-- Whitespace test used by `str.strip`. -/
def pySpace (c : Char) : Bool := c = ' ' || c = '\t' || c = '\n' || c = '\r'

/-- `str.strip`: drop whitespace from both ends. -/
def pyStrip (s : List Char) : List Char :=
  ((s.dropWhile pySpace).reverse.dropWhile pySpace).reverse

/-- `Word.__init__` (lines 54-61): normalize the text as `upper` then
`strip`, raise `ValueError` when the result is shorter than 2, otherwise
set the stripped hint, `start = None`, the `required` flag and `number = 0`. -/
def mkWord (text hint : List Char) (mandatory : Bool) : Except PyErr Word :=
  let w := pyStrip (pyUpper text)
  if w.length < 2 then .error .valueError
  else .ok ⟨w, pyStrip hint, none, mandatory, 0⟩

/-- Cell object, `crossword.py` lines 73-80. -/
structure Cell where
  letter : List Char
  word_across : Bool
  word_down : Bool
  on_boundary : Bool
  is_valid : Bool
  number : Int
deriving DecidableEq, Repr

/-- `Cell.__init__` as called by the engine, `Cell(letter)`: normalized
letter, both orientation flags off, not a boundary, valid, number 0. -/
def mkCell (letter : List Char) : Cell :=
  ⟨pyStrip (pyUpper letter), false, false, false, true, 0⟩

/-- `Cell.available` (lines 82-84). -/
def Cell.available (c : Cell) : Bool :=
  c.is_valid && !(c.word_down && c.word_across)

/-- `Cell.display` (lines 86-93): a nonzero number renders as the number
followed by a space in both views; otherwise the blank view shows the
opaque placeholder, and the solution view shows the letter (or two spaces
for an empty letter). -/
def Cell.display (c : Cell) (show_solution : Bool) : List Char :=
  if c.number ≠ 0 then (toString c.number).toList ++ [' ']
  else if !show_solution then ['[', ']']
  else if c.letter ≠ [] then c.letter ++ [' ']
  else [' ', ' ']

/-- The grid `dict[Position, Cell]` as an insertion-ordered association
list with unique keys, matching Python 3.7+ `dict` semantics. -/
abbrev Cells := List (Position × Cell)

/-- Dictionary lookup `cells[p]`, `None` for a missing key (`KeyError`). -/
def findCell : Cells → Position → Option Cell
  | [], _ => none
  | (q, c) :: rest, p => if q = p then some c else findCell rest p

/-- Dictionary write `cells[p] = c`: replace in place when the key exists,
append otherwise (Python insertion-order semantics). -/
def insertCell : Cells → Position → Cell → Cells
  | [], p, c => [(p, c)]
  | (q, c0) :: rest, p, c =>
    if q = p then (q, c) :: rest else (q, c0) :: insertCell rest p c

/-- Main loop of `place_a_word` (lines 239-256): lay each letter of the
word along the bearing.  A missing cell is created with the letter; an
existing cell raises `CellOccupiedError` on a letter mismatch or an
already-claimed orientation flag.  Note the faithful transcription of the
source bug: after setting the orientation flag on the existing cell
(lines 251/255), line 256 rebinds `cw[p]` to a fresh `Cell(letter)`, so
the flag that was just set is discarded and every traversed cell ends up
with both flags `False`. -/
def place_loop (cw : Cells) (b : Bearing) : List Char → Nat → Except PyErr Cells
  | [], _ => .ok cw
  | letter :: rest, idx =>
    match findCell cw (b.position + b.direction.mul idx) with
    | none =>
      place_loop (insertCell cw (b.position + b.direction.mul idx) (mkCell [letter]))
        b rest (idx + 1)
    | some c =>
      if c.letter ≠ [] ∧ c.letter ≠ [letter] then .error .cellOccupied
      else
        match b.direction with
        | .DOWN =>
          if c.word_down then .error .cellOccupied
          else
            place_loop (insertCell cw (b.position + b.direction.mul idx) (mkCell [letter]))
              b rest (idx + 1)
        | .ACROSS =>
          if c.word_across then .error .cellOccupied
          else
            place_loop (insertCell cw (b.position + b.direction.mul idx) (mkCell [letter]))
              b rest (idx + 1)

/-- `place_a_word` (lines 236-258).  With `commit = True` the mutations
stay in the grid, with `commit = False` they happen on a `deepcopy` that
is discarded — but in both modes a run that completes the loop executes
`w.start = b` (line 257), which is why the returned word always carries
the bearing. -/
def place_a_word (cells : Cells) (w : Word) (b : Bearing) (commit : Bool) :
    Except PyErr (Cells × Word) :=
  match place_loop cells b w.word 0 with
  | .error e => .error e
  | .ok cw => .ok ((if commit then cw else cells), { w with start := some b })

/-- Every candidate bearing a single cell contributes to the letter index
`Crossword.letter_list` (lines 170-180): skipped when invalid or not
available, a DOWN bearing when `word_down` is unset, an ACROSS bearing
when `word_across` is unset (in that source order). -/
def cellBearings (letter : List Char) (p : Position) (c : Cell) : List Bearing :=
  if !c.is_valid || !c.available then []
  else
    (if c.letter = letter ∧ !c.word_down then [⟨p, .DOWN⟩] else []) ++
      (if c.letter = letter ∧ !c.word_across then [⟨p, .ACROSS⟩] else [])

/-- `Crossword.letter_list` (lines 170-180) read at one key: all bearings
the index associates with the given letter, in grid insertion order. -/
def letter_list (cs : Cells) (letter : List Char) : List Bearing :=
  cs.flatMap fun pc => cellBearings letter pc.1 pc.2

/-- `Crossword.find_candidate_intersections` (lines 132-142): for every
offset `k` of the word and every indexed bearing `(pos, dir)` carrying
that letter, emit the candidate `(pos - dir*k, dir)`. -/
def find_candidate_intersections (cs : Cells) (w : Word) : List Bearing :=
  w.word.enum.flatMap fun ol =>
    (letter_list cs [ol.2]).map fun cand =>
      ⟨cand.position - cand.direction.mul ol.1, cand.direction⟩

/-- `Crossword.pick_random_empty_cell` (lines 144-148): on an empty grid
return `Bearing(Position(7, 7), random direction)`; on a non-empty grid
the Python function falls off the end and returns `None`, modelled as
`none`. -/
def pick_random_empty_cell (cs : Cells) (dir : Direction) : Option Bearing :=
  if cs = [] then some ⟨⟨7, 7⟩, dir⟩ else none

/-- Explicit model of the program's randomness: `pickIdx k` stands for the
`random.choice` index among the k-th word's candidate list, `pickDir k`
for the `random.choice([Direction.DOWN, Direction.ACROSS])` in the
fallback for the k-th word. -/
structure Oracle where
  pickIdx : Nat → Nat
  pickDir : Nat → Direction

/-- The validated candidates of one word: `find_candidate_intersections`
filtered by the dry run `place_a_word(cells, word, candidate, False)`,
whose `CellOccupiedError` is caught (lines 109-115). -/
def valid_candidates (cs : Cells) (w : Word) : List Bearing :=
  (find_candidate_intersections cs w).filter fun b => (place_loop cs b w.word 0).isOk

/-- Placement of one word inside `Crossword.__init__` (lines 109-121):
dry-run filter the intersection candidates, fall back to
`pick_random_empty_cell` when none validates (on a non-empty grid that
fallback yields `None` and the subsequent `place_a_word` crashes on
`b.direction` with an `AttributeError`), then commit the randomly chosen
candidate against the live grid. -/
def place_word_step (cs : Cells) (w : Word) (o : Oracle) (k : Nat) :
    Except PyErr (Cells × Word) :=
  let cands := valid_candidates cs w
  if cands.isEmpty then
    match pick_random_empty_cell cs (o.pickDir k) with
    | none => .error .attributeError
    | some b => place_a_word cs w b true
  else
    place_a_word cs w (cands.getD (o.pickIdx k % cands.length) ⟨⟨0, 0⟩, .ACROSS⟩) true

/-- The sequence of values written to `w.start` while one word is being
placed: every dry run that completes executes `w.start = b` (line 257,
reached with `commit=False` from line 112), and the final commit writes
the chosen bearing once more. -/
def start_write_trace (cs : Cells) (w : Word) (o : Oracle) (k : Nat) : List Bearing :=
  let cands := valid_candidates cs w
  if cands.isEmpty then
    match pick_random_empty_cell cs (o.pickDir k) with
    | none => []
    | some b => if (place_loop cs b w.word 0).isOk then [b] else []
  else
    cands ++ [cands.getD (o.pickIdx k % cands.length) ⟨⟨0, 0⟩, .ACROSS⟩]

/-- The word-placement loop of `Crossword.__init__` (lines 104-121),
processing the submitted words in order against the shared grid. -/
def place_all (ws : List Word) (cs : Cells) (acc : List Word) (o : Oracle) (k : Nat) :
    Except PyErr (Cells × List Word) :=
  match ws with
  | [] => .ok (cs, acc.reverse)
  | w :: rest =>
    match place_word_step cs w o k with
    | .error e => .error e
    | .ok (cs', w') => place_all rest cs' (w' :: acc) o (k + 1)

/-- Row-major comparison of start positions, the order `sorted` uses on
`Bearing` keys for as long as it never has to compare two equal
positions (a `Bearing` is a tuple whose second component, `Direction`,
does not support `<`). -/
def posLE (p q : Position) : Bool :=
  decide (p.row < q.row) || (decide (p.row = q.row) && decide (p.col ≤ q.col))

/-- Duplicate test on a list of positions. -/
def hasDupPos : List Position → Bool
  | [] => false
  | p :: rest => rest.contains p || hasDupPos rest

/-- Ordered insertion used by `sortLE`. -/
def insertLE (le : α → α → Bool) (x : α) : List α → List α
  | [] => [x]
  | y :: ys => if le x y then x :: y :: ys else y :: insertLE le x ys

/-- Stable insertion sort, the model of Python's `sorted`: any two stable
comparison sorts agree, so this is extensionally the list `sorted`
returns (for the runs on which `sorted` does not raise). -/
def sortLE (le : α → α → Bool) : List α → List α
  | [] => []
  | x :: xs => insertLE le x (sortLE le xs)

/-- The `sorted(self.word_list, key=lambda w: w.start)` call of line 124 on
an index-tagged word list.  With zero or one element `sorted` performs no
comparison.  Otherwise every element takes part in at least one
comparison, so an unplaced word (`None` key) raises `TypeError`, and so
does any pair of placed words sharing a start position, because ordering
their `Bearing` keys falls through the equal positions to the unorderable
`Direction` members.  With all keys placed and pairwise distinct
positions the comparison is the total row-major order on positions. -/
def sortWordsByStart (ws : List (Nat × Word)) : Except PyErr (List (Nat × Word)) :=
  if ws.length ≤ 1 then .ok ws
  else if ws.any fun iw => iw.2.start.isNone then .error .typeError
  else
    let ps := ws.map fun iw => (iw.2.start.getD ⟨⟨0, 0⟩, .ACROSS⟩).position
    if hasDupPos ps then .error .typeError
    else
      .ok (sortLE
        (fun a b =>
          posLE (a.2.start.getD ⟨⟨0, 0⟩, .ACROSS⟩).position
            (b.2.start.getD ⟨⟨0, 0⟩, .ACROSS⟩).position)
        ws)

/-- The write `self.cells[word.start.position].number = current_number` of
line 130 (the key is always present: the word was committed there). -/
def set_cell_number (cs : Cells) (p : Position) (n : Int) : Cells :=
  cs.map fun pc => if pc.1 = p then (pc.1, { pc.2 with number := n }) else pc

/-- The numbering loop of `Crossword.__init__` (lines 123-130), faithful
to the source bug that `current_position` starts at `Position(-1, -1)`
and is never updated, so the `current_position != word.start.position`
test compares every word against `(-1, -1)`.  Returns the number assigned
to each tagged word together with the updated grid. -/
def assign_numbers :
    List (Nat × Word) → Cells → Int → Position → List (Nat × Int) × Cells
  | [], cells, _, _ => ([], cells)
  | (i, w) :: rest, cells, current, curPos =>
    match w.start with
    | none => assign_numbers rest cells current curPos
    | some b =>
      let current' := if curPos ≠ b.position then current + 1 else current
      let cells' := set_cell_number cells b.position current'
      let out := assign_numbers rest cells' current' curPos
      ((i, current') :: out.1, out.2)

/-- The `Crossword` aggregate: the word list and the grid it owns. -/
structure CW where
  word_list : List Word
  cells : Cells
deriving DecidableEq, Repr

/-- `Crossword.__init__` (lines 101-130): place every submitted word in
order, then run the numbering pass over the words sorted by start. -/
def crossword (ws : List Word) (o : Oracle) : Except PyErr CW :=
  match place_all ws [] [] o 0 with
  | .error e => .error e
  | .ok (cells, words) =>
    match sortWordsByStart words.enum with
    | .error e => .error e
    | .ok sortedWords =>
      let out := assign_numbers sortedWords cells 0 ⟨-1, -1⟩
      .ok ⟨words.enum.map fun iw =>
              match out.1.lookup iw.1 with
              | some n => { iw.2 with number := n }
              | none => iw.2,
            out.2⟩

/-- The integer order passed to the sort of `histogram`. -/
def intLE (a b : Int) : Bool := decide (a ≤ b)

/-- `Crossword.histogram` (lines 182-189): the sorted lists of the rows
and of the columns of all occupied positions. -/
def histogram (cs : Cells) : List Int × List Int :=
  (sortLE intLE (cs.map fun pc => pc.1.row),
    sortLE intLE (cs.map fun pc => pc.1.col))

/-- `Crossword.extrema` (lines 191-194): `(r[0], c[0])` and
`(r[-1], c[-1])` of the histogram; on an empty grid the indexing raises
`IndexError`. -/
def extrema (cs : Cells) : Except PyErr (Position × Position) :=
  match (histogram cs).1.head?, (histogram cs).2.head?,
      (histogram cs).1.getLast?, (histogram cs).2.getLast? with
  | some r0, some c0, some r1, some c1 => .ok (⟨r0, c0⟩, ⟨r1, c1⟩)
  | _, _, _, _ => .error .indexError

/-- `Crossword.recenter` (lines 204-210): translate every cell key and
every word's start by the negative of the minimum corner; a no-op when
the minimum corner is already the origin.  A word whose `start` is `None`
makes `word.start.position` raise `AttributeError` in the word loop. -/
def recenter (st : CW) : Except PyErr CW :=
  match extrema st.cells with
  | .error e => .error e
  | .ok (offset, _) =>
    if offset = ⟨0, 0⟩ then .ok st
    else if st.word_list.all fun w => w.start.isSome then
      .ok ⟨st.word_list.map fun w =>
              { w with start := w.start.map fun bb => ⟨bb.position - offset, bb.direction⟩ },
            st.cells.map fun pc => (pc.1 - offset, pc.2)⟩
    else .error .attributeError

/-- The write `out[p.row][p.col] = v` on the display array.  After
`recenter` every occupied position lies inside the array bounds with
nonnegative coordinates, so plain natural indexing is faithful there. -/
def setGrid (out : List (List (List Char))) (p : Position) (v : List Char) :
    List (List (List Char)) :=
  out.set p.row.toNat ((out.getD p.row.toNat []).set p.col.toNat v)

/-- `Crossword.solution_only` (lines 212-218): recenter, size the array to
`extrema[1] + 1`, default-fill with two spaces, then overwrite every
occupied position with `cell.display(True)`. -/
def solution_only (st : CW) : Except PyErr (List (List (List Char))) :=
  match recenter st with
  | .error e => .error e
  | .ok st' =>
    match extrema st'.cells with
    | .error e => .error e
    | .ok (_, mx) =>
      let size := mx.addInt 1
      let base := List.replicate size.row.toNat (List.replicate size.col.toNat [' ', ' '])
      .ok (st'.cells.foldl (fun out pc => setGrid out pc.1 (pc.2.display true)) base)

/-- `Crossword.terminal_display` (lines 220-226): same construction with
default fill `"<>"` and `cell.display(False)`. -/
def terminal_display (st : CW) : Except PyErr (List (List (List Char))) :=
  match recenter st with
  | .error e => .error e
  | .ok st' =>
    match extrema st'.cells with
    | .error e => .error e
    | .ok (_, mx) =>
      let size := mx.addInt 1
      let base := List.replicate size.row.toNat (List.replicate size.col.toNat ['<', '>'])
      .ok (st'.cells.foldl (fun out pc => setGrid out pc.1 (pc.2.display false)) base)

/-- Boolean check that a placement result is not the internal
`CellOccupiedError`. -/
def notCellOccupied (r : Except PyErr (Cells × Word)) : Bool :=
  match r with
  | .error .cellOccupied => false
  | _ => true

/-! Concrete inputs used by the claim theorems. -/

/-- Deterministic oracle: candidate index 0, fallback direction ACROSS. -/
def oracleA : Oracle := ⟨fun _ => 0, fun _ => .ACROSS⟩

/-- Deterministic oracle: candidate index 0, fallback direction DOWN. -/
def oracleD : Oracle := ⟨fun _ => 0, fun _ => .DOWN⟩

/-- The word "AB" as the caller constructs it. -/
def wordAB : Word := ⟨['A', 'B'], [], none, true, 0⟩

/-- The word "BA". -/
def wordBA : Word := ⟨['B', 'A'], [], none, true, 0⟩

/-- The word "AC". -/
def wordAC : Word := ⟨['A', 'C'], [], none, true, 0⟩

/-- The word "CD", sharing no letter with "AB". -/
def wordCD : Word := ⟨['C', 'D'], [], none, true, 0⟩

/-- The grid after the engine places the first word "AB": the fallback
anchors it at `(7, 7)` ACROSS, creating the cells `A` at `(7, 7)` and `B`
at `(7, 8)` — with both orientation flags still `False` on both cells. -/
def gridAB : Cells :=
  [(⟨7, 7⟩, ⟨['A'], false, false, false, true, 0⟩),
    (⟨7, 8⟩, ⟨['B'], false, false, false, true, 0⟩)]

/-- The finished Crossword built from `["AB", "BA"]` with `oracleA`:
"AB" lies ACROSS at `(7, 7)`, "BA" lies DOWN at `(7, 8)`, words numbered
1 and 2. -/
def cwABBA : CW :=
  ⟨[⟨['A', 'B'], [], some ⟨⟨7, 7⟩, .ACROSS⟩, true, 1⟩,
      ⟨['B', 'A'], [], some ⟨⟨7, 8⟩, .DOWN⟩, true, 2⟩],
    [(⟨7, 7⟩, ⟨['A'], false, false, false, true, 1⟩),
      (⟨7, 8⟩, ⟨['B'], false, false, false, true, 2⟩),
      (⟨8, 8⟩, ⟨['A'], false, false, false, true, 0⟩)]⟩

/-- The recentering of `cwABBA`: everything shifted by `(-7, -7)`. -/
def cwABBA' : CW :=
  ⟨[⟨['A', 'B'], [], some ⟨⟨0, 0⟩, .ACROSS⟩, true, 1⟩,
      ⟨['B', 'A'], [], some ⟨⟨0, 1⟩, .DOWN⟩, true, 2⟩],
    [(⟨0, 0⟩, ⟨['A'], false, false, false, true, 1⟩),
      (⟨0, 1⟩, ⟨['B'], false, false, false, true, 2⟩),
      (⟨1, 1⟩, ⟨['A'], false, false, false, true, 0⟩)]⟩

/-- The solution view of `cwABBA`: numbers 1 and 2, the letter `A`, and a
default-filled hole of two spaces at row 1 column 0. -/
def solABBA : List (List (List Char)) :=
  [[['1', ' '], ['2', ' ']], [[' ', ' '], ['A', ' ']]]

/-- The blank view of `cwABBA`: same numbers, the opaque `[]` placeholder
for the unnumbered letter cell, and a default fill `<>` in the hole. -/
def termABBA : List (List (List Char)) :=
  [[['1', ' '], ['2', ' ']], [['<', '>'], ['[', ']']]]

/-- The grid after additionally committing "BA" DOWN at `(7, 8)` on top of
`gridAB`: the `B` cell is rebuilt afresh and an `A` cell appears at
`(8, 8)`; all letters of "AB" survive unchanged. -/
def gridABA : Cells :=
  [(⟨7, 7⟩, ⟨['A'], false, false, false, true, 0⟩),
    (⟨7, 8⟩, ⟨['B'], false, false, false, true, 0⟩),
    (⟨8, 8⟩, ⟨['A'], false, false, false, true, 0⟩)]

/-! Helper lemmas about positions, the grid map and the placement loop. -/

theorem Position.add_def (p q : Position) : p + q = ⟨p.row + q.row, p.col + q.col⟩ := rfl

theorem Position.sub_def (p q : Position) : p - q = ⟨p.row - q.row, p.col - q.col⟩ := rfl

theorem findCell_insertCell_self (cs : Cells) (p : Position) (c : Cell) :
    findCell (insertCell cs p c) p = some c := by
  induction cs with
  | nil => simp [insertCell, findCell]
  | cons pc rest ih =>
    obtain ⟨q, c0⟩ := pc
    by_cases h : q = p
    · simp [insertCell, h, findCell]
    · simp [insertCell, h, findCell, ih]

theorem findCell_insertCell_ne (cs : Cells) (p q : Position) (c : Cell) (h : p ≠ q) :
    findCell (insertCell cs p c) q = findCell cs q := by
  induction cs with
  | nil => simp [insertCell, findCell, h]
  | cons pc rest ih =>
    obtain ⟨r, c0⟩ := pc
    by_cases hr : r = p
    · subst hr
      simp [insertCell, findCell, h]
    · simp [insertCell, hr, findCell, ih]

theorem findCell_mem (cs : Cells) (p : Position) (c : Cell)
    (h : findCell cs p = some c) : (p, c) ∈ cs := by
  induction cs with
  | nil => simp [findCell] at h
  | cons pc rest ih =>
    obtain ⟨q, c0⟩ := pc
    by_cases hq : q = p
    · subst hq
      simp [findCell] at h
      simp [h]
    · simp [findCell, hq] at h
      exact List.mem_cons_of_mem _ (ih h)

theorem mem_insertCell (cs : Cells) (p : Position) (c : Cell) (pc : Position × Cell)
    (h : pc ∈ insertCell cs p c) : pc.1 = p ∨ pc ∈ cs := by
  induction cs with
  | nil =>
    simp [insertCell] at h
    simp [h]
  | cons qc rest ih =>
    obtain ⟨q, c0⟩ := qc
    by_cases hq : q = p
    · subst hq
      simp [insertCell] at h
      rcases h with h | h
      · simp [h]
      · exact Or.inr (List.mem_cons_of_mem _ h)
    · simp [insertCell, hq] at h
      rcases h with h | h
      · exact Or.inr (by simp [h])
      · rcases ih h with h1 | h1
        · exact Or.inl h1
        · exact Or.inr (List.mem_cons_of_mem _ h1)

theorem pos_add_mul_ne (bp : Position) (d : Direction) (a b : Nat) (h : a ≠ b) :
    bp + d.mul a ≠ bp + d.mul b := by
  intro he
  apply h
  rw [Position.add_def, Position.add_def, Position.mk.injEq] at he
  cases d <;> simp [Direction.mul, Direction.val] at he <;> omega

theorem place_loop_error (cw : Cells) (b : Bearing) (ls : List Char) (idx : Nat)
    (e : PyErr) (h : place_loop cw b ls idx = .error e) : e = .cellOccupied := by
  induction ls generalizing cw idx with
  | nil => simp [place_loop] at h
  | cons l rest ih =>
    rw [place_loop] at h
    split at h
    · exact ih _ _ h
    · split at h
      · injection h with h'
        exact h'.symm
      · split at h
        · split at h
          · injection h with h'
            exact h'.symm
          · exact ih _ _ h
        · split at h
          · injection h with h'
            exact h'.symm
          · exact ih _ _ h

theorem place_loop_fresh (ls : List Char) (cw : Cells) (b : Bearing) (idx : Nat)
    (h : ∀ pc ∈ cw, ∃ j, j < idx ∧ pc.1 = b.position + b.direction.mul j) :
    (place_loop cw b ls idx).isOk = true := by
  induction ls generalizing cw idx with
  | nil => simp [place_loop, Except.isOk, Except.toBool]
  | cons l rest ih =>
    have hf : findCell cw (b.position + b.direction.mul idx) = none := by
      cases hfc : findCell cw (b.position + b.direction.mul idx) with
      | none => rfl
      | some c =>
        obtain ⟨j, hj, hpj⟩ := h _ (findCell_mem _ _ _ hfc)
        simp only [] at hpj
        exact absurd hpj (pos_add_mul_ne b.position b.direction idx j (by omega))
    rw [place_loop]
    rw [hf]
    apply ih
    intro pc hpc
    rcases mem_insertCell _ _ _ _ hpc with h1 | h2
    · exact ⟨idx, Nat.lt_succ_self idx, h1⟩
    · obtain ⟨j, hj, e⟩ := h pc h2
      exact ⟨j, Nat.lt_succ_of_lt hj, e⟩

/-- C6: `CellOccupiedError` never escapes the placement of a word.  Every
dry-run `CellOccupiedError` is caught by the candidate filter
(lines 110-115), the commit of a validated candidate replays exactly the
computation that succeeded, and the fallback placement on an empty grid
only creates fresh cells; the only error the per-word placement can
surface is the `AttributeError` of the unrelated `None`-fallback bug. -/
theorem c6_cell_occupied_never_escapes (cs : Cells) (w : Word) (o : Oracle) (k : Nat) :
    notCellOccupied (place_word_step cs w o k) = true := by
  rw [place_word_step]
  by_cases he : (valid_candidates cs w).isEmpty
  · simp only [he, if_true]
    by_cases hcs : cs = []
    · subst hcs
      simp only [pick_random_empty_cell, if_pos rfl]
      have hok := place_loop_fresh w.word [] ⟨⟨7, 7⟩, o.pickDir k⟩ 0 (by simp)
      cases hpl : place_loop [] ⟨⟨7, 7⟩, o.pickDir k⟩ w.word 0 with
      | error e =>
        rw [hpl] at hok
        simp [Except.isOk, Except.toBool] at hok
      | ok cw => simp [pick_random_empty_cell, place_a_word, hpl, notCellOccupied]
    · simp [pick_random_empty_cell, hcs, notCellOccupied]
  · simp only [he, if_false]
    set bsel := (valid_candidates cs w).getD (o.pickIdx k % (valid_candidates cs w).length)
      ⟨⟨0, 0⟩, .ACROSS⟩ with hbsel
    have hne : valid_candidates cs w ≠ [] := by
      intro hn
      rw [hn] at he
      exact he rfl
    have hlen : 0 < (valid_candidates cs w).length := List.length_pos.mpr hne
    have hmod : o.pickIdx k % (valid_candidates cs w).length < (valid_candidates cs w).length :=
      Nat.mod_lt _ hlen
    have hmem : bsel ∈ valid_candidates cs w := by
      rw [hbsel, List.getD_eq_getElem?_getD, List.getElem?_eq_getElem hmod]
      exact List.getElem_mem hmod
    have hok := (List.mem_filter.mp hmem).2
    cases hpl : place_loop cs bsel w.word 0 with
    | error e =>
      rw [hpl] at hok
      simp [Except.isOk, Except.toBool] at hok
    | ok cw => simp [place_a_word, hpl, notCellOccupied]

theorem place_loop_ok_spec (b : Bearing) (cw' : Cells) :
    ∀ (ls : List Char) (cw : Cells) (idx : Nat),
      (∀ l ∈ ls, pyStrip (pyUpper [l]) = [l]) →
      place_loop cw b ls idx = .ok cw' →
      ((∀ p c, findCell cw p = some c → c.letter ≠ [] →
          ∃ c', findCell cw' p = some c' ∧ c'.letter = c.letter) ∧
        (∀ j (hj : j < ls.length), ∃ c',
          findCell cw' (b.position + b.direction.mul (idx + j)) = some c' ∧
          c'.letter = [ls.get ⟨j, hj⟩])) := by
  intro ls
  induction ls with
  | nil =>
    intro cw idx hch h
    injection h with h'
    subst h'
    constructor
    · intro p c hpc hne
      exact ⟨c, hpc, rfl⟩
    · intro j hj
      exact absurd hj (by simp)
  | cons l rest ih =>
    intro cw idx hch h
    rw [place_loop] at h
    have key : place_loop (insertCell cw (b.position + b.direction.mul idx) (mkCell [l]))
          b rest (idx + 1) = .ok cw' ∧
        ∀ c₀, findCell cw (b.position + b.direction.mul idx) = some c₀ →
          c₀.letter = [] ∨ c₀.letter = [l] := by
      split at h
      next hf =>
        refine ⟨h, fun c₀ hc₀ => ?_⟩
        rw [hf] at hc₀
        cases hc₀
      next c₀ hf =>
        split at h
        next hcond => exact absurd h (by simp)
        next hcond =>
          have hone : ∀ c₁, findCell cw (b.position + b.direction.mul idx) = some c₁ →
              c₁.letter = [] ∨ c₁.letter = [l] := by
            intro c₁ hc₁
            rw [hf] at hc₁
            injection hc₁ with he
            rw [← he]
            by_cases hn : c₀.letter = []
            · exact Or.inl hn
            · right
              by_contra hne2
              exact hcond ⟨hn, hne2⟩
          refine ⟨?_, hone⟩
          split at h
          · split at h
            · exact absurd h (by simp)
            · exact h
          · split at h
            · exact absurd h (by simp)
            · exact h
    obtain ⟨h', hold⟩ := key
    have hch' : ∀ x ∈ rest, pyStrip (pyUpper [x]) = [x] :=
      fun x hx => hch x (List.mem_cons_of_mem _ hx)
    obtain ⟨P2, Q2⟩ := ih _ _ hch' h'
    have hl : (mkCell [l]).letter = [l] := hch l (List.mem_cons_self _ _)
    constructor
    · intro p c hpc hne
      by_cases hp : p = b.position + b.direction.mul idx
      · have hcl : c.letter = [l] := by
          rcases hold c (hp ▸ hpc) with h0 | h0
          · exact absurd h0 hne
          · exact h0
        obtain ⟨c', hc', hlet⟩ := P2 p (mkCell [l])
          (by rw [hp]; exact findCell_insertCell_self _ _ _) (by rw [hl]; simp)
        exact ⟨c', hc', by rw [hlet, hl, hcl]⟩
      · refine P2 p c ?_ hne
        rw [findCell_insertCell_ne _ _ _ _ fun he => hp he.symm]
        exact hpc
    · intro j hj
      cases j with
      | zero =>
        obtain ⟨c', hc', hlet⟩ := P2 (b.position + b.direction.mul idx) (mkCell [l])
          (findCell_insertCell_self _ _ _) (by rw [hl]; simp)
        refine ⟨c', ?_, ?_⟩
        · rw [Nat.add_zero]
          exact hc'
        · rw [hlet, hl]
          rfl
      | succ j' =>
        obtain ⟨c', hc', hlet⟩ := Q2 j' (by simpa using Nat.lt_of_succ_lt_succ hj)
        refine ⟨c', ?_, ?_⟩
        · rw [show idx + (j' + 1) = idx + 1 + j' from by omega]
          exact hc'
        · rw [hlet]
          rfl

theorem place_loop_reject (bp : Position) (bd : Direction) :
    ∀ (ls : List Char) (cw : Cells) (idx j : Nat) (hj : j < ls.length) (c : Cell),
      findCell cw (bp + bd.mul (idx + j)) = some c →
      c.letter ≠ [] → c.letter ≠ [ls.get ⟨j, hj⟩] →
      place_loop cw ⟨bp, bd⟩ ls idx = .error .cellOccupied := by
  intro ls
  induction ls with
  | nil =>
    intro cw idx j hj
    exact absurd hj (by simp)
  | cons l rest ih =>
    intro cw idx j hj c hfindc hne hdiff
    cases j with
    | zero =>
      rw [place_loop]
      rw [Nat.add_zero] at hfindc
      simp only [hfindc]
      rw [if_pos ⟨hne, by simpa using hdiff⟩]
    | succ j' =>
      rw [place_loop]
      have hju : j' < rest.length := by simpa using Nat.lt_of_succ_lt_succ hj
      have hstep : ∀ cw₂ : Cells,
          findCell cw₂ (bp + bd.mul (idx + 1 + j')) = some c →
          place_loop cw₂ ⟨bp, bd⟩ rest (idx + 1) = .error .cellOccupied := by
        intro cw₂ hf₂
        exact ih cw₂ (idx + 1) j' hju c hf₂ hne (by simpa using hdiff)
      have hpos : bp + bd.mul (idx + (j' + 1)) = bp + bd.mul (idx + 1 + j') := by
        rw [show idx + (j' + 1) = idx + 1 + j' from by omega]
      rw [hpos] at hfindc
      have hnep : bp + bd.mul idx ≠ bp + bd.mul (idx + 1 + j') :=
        pos_add_mul_ne bp bd idx (idx + 1 + j') (by omega)
      cases hf : findCell cw (bp + bd.mul idx) with
      | none =>
        simp only [hf]
        apply hstep
        rw [findCell_insertCell_ne _ _ _ _ hnep]
        exact hfindc
      | some c₀ =>
        simp only [hf]
        by_cases hcond : c₀.letter ≠ [] ∧ c₀.letter ≠ [l]
        · rw [if_pos hcond]
        · rw [if_neg hcond]
          cases bd with
          | DOWN =>
            by_cases hflag : c₀.word_down
            · rw [if_pos hflag]
            · rw [if_neg hflag]
              apply hstep
              rw [findCell_insertCell_ne _ _ _ _ hnep]
              exact hfindc
          | ACROSS =>
            by_cases hflag : c₀.word_across
            · rw [if_pos hflag]
            · rw [if_neg hflag]
              apply hstep
              rw [findCell_insertCell_ne _ _ _ _ hnep]
              exact hfindc

theorem insertLE_ne_nil (le : α → α → Bool) (x : α) (l : List α) : insertLE le x l ≠ [] := by
  cases l with
  | nil => simp [insertLE]
  | cons y ys =>
    rw [insertLE]
    split <;> simp

theorem sortLE_ne_nil (le : α → α → Bool) (l : List α) (h : l ≠ []) : sortLE le l ≠ [] := by
  cases l with
  | nil => exact absurd rfl h
  | cons x xs => exact insertLE_ne_nil le x (sortLE le xs)

theorem mem_insertLE (le : α → α → Bool) (x a : α) (l : List α) :
    a ∈ insertLE le x l ↔ a = x ∨ a ∈ l := by
  induction l with
  | nil => simp [insertLE]
  | cons y ys ih =>
    rw [insertLE]
    split
    · simp
    · simp only [List.mem_cons, ih]
      tauto

theorem sortInt_head_min (l : List Int) (h : l ≠ []) :
    ∃ m, (sortLE intLE l).head? = some m ∧ m ∈ l ∧ ∀ x ∈ l, m ≤ x := by
  induction l with
  | nil => exact absurd rfl h
  | cons x xs ih =>
    cases hxs : xs with
    | nil =>
      refine ⟨x, by simp [sortLE, insertLE], by simp, ?_⟩
      intro y hy
      subst hxs
      rcases List.mem_cons.mp hy with h1 | h1
      · exact le_of_eq (congrArg id h1).symm
      · cases h1
    | cons z zs =>
      subst hxs
      obtain ⟨m, hm, hmem, hmin⟩ := ih (by simp)
      obtain ⟨rest, hrest⟩ : ∃ rest, sortLE intLE (z :: zs) = m :: rest := by
        cases hs : sortLE intLE (z :: zs) with
        | nil =>
          rw [hs] at hm
          cases hm
        | cons a t =>
          rw [hs] at hm
          injection hm with ha
          exact ⟨t, by rw [ha]⟩
      rw [sortLE, hrest, insertLE]
      by_cases hle : intLE x m = true
      · rw [if_pos hle]
        refine ⟨x, rfl, by simp, ?_⟩
        intro y hy
        have hxm : x ≤ m := by simpa [intLE] using hle
        rcases List.mem_cons.mp hy with h1 | h1
        · omega
        · have := hmin y h1
          omega
      · rw [if_neg hle]
        have hmx : m ≤ x := by
          have : ¬(x ≤ m) := by simpa [intLE] using hle
          omega
        refine ⟨m, rfl, List.mem_cons_of_mem _ hmem, ?_⟩
        intro y hy
        rcases List.mem_cons.mp hy with h1 | h1
        · omega
        · exact hmin y h1

theorem sortInt_head_eq (l : List Int) (m : Int) (hmem : m ∈ l) (hmin : ∀ x ∈ l, m ≤ x) :
    (sortLE intLE l).head? = some m := by
  obtain ⟨m', hm', hmem', hmin'⟩ := sortInt_head_min l (List.ne_nil_of_mem hmem)
  have h1 : m' ≤ m := hmin' m hmem
  have h2 : m ≤ m' := hmin m' hmem'
  rw [hm']
  congr 1
  omega

theorem extrema_spec (cs : Cells) (h : cs ≠ []) :
    ∃ mn mx, extrema cs = .ok (mn, mx) ∧
      (∃ pc ∈ cs, pc.1.row = mn.row) ∧ (∀ pc ∈ cs, mn.row ≤ pc.1.row) ∧
      (∃ pc ∈ cs, pc.1.col = mn.col) ∧ (∀ pc ∈ cs, mn.col ≤ pc.1.col) := by
  have hrows : cs.map (fun pc => pc.1.row) ≠ [] := by
    simpa using h
  have hcols : cs.map (fun pc => pc.1.col) ≠ [] := by
    simpa using h
  obtain ⟨mr, hmr, hmrmem, hmrmin⟩ := sortInt_head_min _ hrows
  obtain ⟨mc, hmc, hmcmem, hmcmin⟩ := sortInt_head_min _ hcols
  obtain ⟨Mr, hMr⟩ := Option.isSome_iff_exists.mp
    (List.getLast?_isSome.mpr (sortLE_ne_nil intLE _ hrows))
  obtain ⟨Mc, hMc⟩ := Option.isSome_iff_exists.mp
    (List.getLast?_isSome.mpr (sortLE_ne_nil intLE _ hcols))
  refine ⟨⟨mr, mc⟩, ⟨Mr, Mc⟩, ?_, ?_, ?_, ?_, ?_⟩
  · simp only [extrema, histogram]
    rw [hmr, hmc, hMr, hMc]
  · obtain ⟨pc, hpc, he⟩ := List.mem_map.mp hmrmem
    exact ⟨pc, hpc, he⟩
  · intro pc hpc
    exact hmrmin _ (List.mem_map.mpr ⟨pc, hpc, rfl⟩)
  · obtain ⟨pc, hpc, he⟩ := List.mem_map.mp hmcmem
    exact ⟨pc, hpc, he⟩
  · intro pc hpc
    exact hmcmin _ (List.mem_map.mpr ⟨pc, hpc, rfl⟩)

/-- C7: recentering is idempotent and is a no-op on an already zero-based
layout.  For any state with an occupied cell and all words placed, running
`recenter` a second time returns the once-recentered state unchanged, and
when the minimum occupied corner is already the origin the first run
already returns the state unchanged. -/
theorem c7_recenter_idempotent (st : CW) (h1 : st.cells ≠ [])
    (h2 : ∀ w ∈ st.word_list, w.start.isSome = true) :
    Except.bind (recenter st) recenter = recenter st ∧
      ∀ mx, extrema st.cells = .ok (⟨0, 0⟩, mx) → recenter st = .ok st := by
  obtain ⟨mn, mx, hex, hrm, hrmin, hcm, hcmin⟩ := extrema_spec st.cells h1
  by_cases h0 : mn = (⟨0, 0⟩ : Position)
  · have hA : recenter st = .ok st := by
      simp only [recenter, hex]
      rw [if_pos h0]
    refine ⟨?_, fun _ _ => hA⟩
    rw [hA]
    exact congrArg (fun r => r) hA
  · have hall : st.word_list.all (fun w => w.start.isSome) = true :=
      List.all_eq_true.mpr h2
    have hA : recenter st = .ok
        ⟨st.word_list.map fun w =>
            { w with start := w.start.map fun bb => ⟨bb.position - mn, bb.direction⟩ },
          st.cells.map fun pc => (pc.1 - mn, pc.2)⟩ := by
      simp only [recenter, hex]
      rw [if_neg h0, if_pos hall]
    set st' : CW :=
      ⟨st.word_list.map fun w =>
          { w with start := w.start.map fun bb => ⟨bb.position - mn, bb.direction⟩ },
        st.cells.map fun pc => (pc.1 - mn, pc.2)⟩ with hst'
    have hcne : st'.cells ≠ [] := by
      rw [hst']
      simpa using h1
    obtain ⟨mn', mx', hex', hrm', hrmin', hcm', hcmin'⟩ := extrema_spec st'.cells hcne
    have hcells' : st'.cells = st.cells.map fun pc => (pc.1 - mn, pc.2) := by
      rw [hst']
    have hrup : ∀ pc' ∈ st'.cells, 0 ≤ pc'.1.row := by
      intro pc' hpc'
      rw [hcells'] at hpc'
      obtain ⟨pc, hpc, he⟩ := List.mem_map.mp hpc'
      have := hrmin pc hpc
      rw [← he]
      simp [Position.sub_def]
      omega
    have hcup : ∀ pc' ∈ st'.cells, 0 ≤ pc'.1.col := by
      intro pc' hpc'
      rw [hcells'] at hpc'
      obtain ⟨pc, hpc, he⟩ := List.mem_map.mp hpc'
      have := hcmin pc hpc
      rw [← he]
      simp [Position.sub_def]
      omega
    have hrzero : ∃ pc' ∈ st'.cells, pc'.1.row = 0 := by
      obtain ⟨pc, hpc, he⟩ := hrm
      refine ⟨(pc.1 - mn, pc.2), ?_, ?_⟩
      · rw [hcells']
        exact List.mem_map.mpr ⟨pc, hpc, rfl⟩
      · simp [Position.sub_def]
        omega
    have hczero : ∃ pc' ∈ st'.cells, pc'.1.col = 0 := by
      obtain ⟨pc, hpc, he⟩ := hcm
      refine ⟨(pc.1 - mn, pc.2), ?_, ?_⟩
      · rw [hcells']
        exact List.mem_map.mpr ⟨pc, hpc, rfl⟩
      · simp [Position.sub_def]
        omega
    have hmn' : mn' = (⟨0, 0⟩ : Position) := by
      obtain ⟨pcz, hpcz, hz⟩ := hrzero
      have a1 : mn'.row ≤ 0 := hz ▸ hrmin' pcz hpcz
      obtain ⟨pcm, hpcm, hm⟩ := hrm'
      have a2 : 0 ≤ mn'.row := hm ▸ hrup pcm hpcm
      obtain ⟨qcz, hqcz, hq⟩ := hczero
      have b1 : mn'.col ≤ 0 := hq ▸ hcmin' qcz hqcz
      obtain ⟨qcm, hqcm, hqm⟩ := hcm'
      have b2 : 0 ≤ mn'.col := hqm ▸ hcup qcm hqcm
      cases mn'
      simp_all
      omega
    have hB : recenter st' = .ok st' := by
      simp only [recenter, hex']
      rw [if_pos hmn']
    constructor
    · rw [hA]
      exact hB
    · intro mx₀ hex0
      have := hex0.symm.trans hex
      injection this with hp
      rw [Prod.mk.injEq] at hp
      exact absurd hp.1.symm h0

/-- Witness for C7 at a concrete two-cell layout anchored away from the
origin. -/
theorem c7_recenter_idempotent_witness :
    Except.bind
        (recenter ⟨[⟨['A', 'B'], [], some ⟨⟨2, 3⟩, .ACROSS⟩, true, 1⟩],
          [(⟨2, 3⟩, ⟨['A'], false, false, false, true, 1⟩),
            (⟨2, 4⟩, ⟨['B'], false, false, false, true, 0⟩)]⟩)
        recenter =
      recenter ⟨[⟨['A', 'B'], [], some ⟨⟨2, 3⟩, .ACROSS⟩, true, 1⟩],
        [(⟨2, 3⟩, ⟨['A'], false, false, false, true, 1⟩),
          (⟨2, 4⟩, ⟨['B'], false, false, false, true, 0⟩)]⟩ :=
  (c7_recenter_idempotent _ (by decide) (by decide)).1

theorem setGrid_length (out : List (List (List Char))) (p : Position) (v : List Char) :
    (setGrid out p v).length = out.length := by
  simp [setGrid]

theorem foldl_setGrid_length (cs : Cells) (g : Position × Cell → List Char)
    (out : List (List (List Char))) :
    (cs.foldl (fun o pc => setGrid o pc.1 (g pc)) out).length = out.length := by
  induction cs generalizing out with
  | nil => rfl
  | cons pc rest ih =>
    rw [List.foldl_cons, ih]
    exact setGrid_length out pc.1 (g pc)

theorem foldl_setGrid_row_length (cs : Cells) (g : Position × Cell → List Char)
    (out : List (List (List Char))) (C : Nat) (hrow : ∀ r ∈ out, r.length = C) :
    ∀ r ∈ cs.foldl (fun o pc => setGrid o pc.1 (g pc)) out, r.length = C := by
  induction cs generalizing out with
  | nil => exact hrow
  | cons pc rest ih =>
    rw [List.foldl_cons]
    apply ih
    intro r hr
    rw [setGrid] at hr
    by_cases hi : pc.1.row.toNat < out.length
    · rcases List.mem_or_eq_of_mem_set hr with h | h
      · exact hrow r h
      · rw [h, List.length_set, List.getD_eq_getElem?_getD, List.getElem?_eq_getElem hi]
        exact hrow _ (List.getElem_mem hi)
    · rw [List.set_eq_of_length_le (Nat.le_of_not_lt hi)] at hr
      exact hrow r hr

theorem setGrid_entry_ne (out : List (List (List Char))) (p : Position) (v : List Char)
    (i j : Nat) (hne : ¬(p.row.toNat = i ∧ p.col.toNat = j)) :
    ((setGrid out p v).getD i []).getD j [] = (out.getD i []).getD j [] := by
  by_cases hr : p.row.toNat = i
  · have hc : p.col.toNat ≠ j := fun hcj => hne ⟨hr, hcj⟩
    rw [setGrid, hr]
    simp only [List.getD_eq_getElem?_getD]
    by_cases hi : i < out.length
    · rw [List.getElem?_set_self hi, Option.getD_some, List.getElem?_set_ne hc]
    · rw [List.set_eq_of_length_le (Nat.le_of_not_lt hi)]
  · rw [setGrid]
    simp only [List.getD_eq_getElem?_getD]
    rw [List.getElem?_set_ne hr]

theorem foldl_setGrid_entry (cs : Cells) (g : Position × Cell → List Char)
    (out : List (List (List Char))) (i j : Nat)
    (hfree : ∀ pc ∈ cs, ¬(pc.1.row.toNat = i ∧ pc.1.col.toNat = j)) :
    ((cs.foldl (fun o pc => setGrid o pc.1 (g pc)) out).getD i []).getD j [] =
      (out.getD i []).getD j [] := by
  induction cs generalizing out with
  | nil => rfl
  | cons pc rest ih =>
    rw [List.foldl_cons, ih _ fun qc hqc => hfree qc (List.mem_cons_of_mem _ hqc)]
    exact setGrid_entry_ne out pc.1 (g pc) i j (hfree pc (List.mem_cons_self _ _))

theorem replicate_entry (R C : Nat) (v : List Char) (i j : Nat) (hi : i < R) (hj : j < C) :
    ((List.replicate R (List.replicate C v)).getD i []).getD j [] = v := by
  simp only [List.getD_eq_getElem?_getD]
  rw [List.getElem?_replicate_of_lt hi, Option.getD_some,
    List.getElem?_replicate_of_lt hj, Option.getD_some]

theorem getD_length_of_shape (L : List (List (List Char))) (R C i : Nat)
    (hL : L.length = R) (hR : ∀ r ∈ L, r.length = C) (hi : i < R) :
    (L.getD i []).length = C := by
  have hi' : i < L.length := hL ▸ hi
  rw [List.getD_eq_getElem?_getD, List.getElem?_eq_getElem hi', Option.getD_some]
  exact hR _ (List.getElem_mem hi')

/-- C1: the claim says `word_across`/`word_down` flip from false to true at
most once per cell and that a second word in the same orientation over a
claimed cell fails candidate validation.  On the code this is false: after
committing "AB" ACROSS through `(7,7)` and `(7,8)`, `word_across` is still
`false` on both cells (line 256 `cw[p] = Cell(letter)` replaces the cell
whose flag lines 248-255 had just set), so the dry-run validation of a
second ACROSS word laid over exactly the same cells succeeds instead of
raising `CellOccupiedError`. -/
theorem c1_flags_never_persist :
    place_word_step [] wordAB oracleA 0 =
        .ok (gridAB, { wordAB with start := some ⟨⟨7, 7⟩, .ACROSS⟩ }) ∧
      (findCell gridAB ⟨7, 7⟩).map Cell.word_across = some false ∧
      (findCell gridAB ⟨7, 8⟩).map Cell.word_across = some false ∧
      (place_a_word gridAB wordBA ⟨⟨7, 8⟩, .ACROSS⟩ false).isOk = true ∧
      (place_a_word gridAB { wordAB with hint := ['x'] } ⟨⟨7, 7⟩, .ACROSS⟩ false).isOk
        = true := by
  refine ⟨?_, ?_, ?_, ?_, ?_⟩ <;> rfl

/-- C2: the claim says every word's placement completes without crash, the
fallback anchoring it when no intersection validates even on a non-empty
grid.  On the code this is false: on the input `["AB", "CD"]` the second
word has no intersection candidate, `pick_random_empty_cell` returns
`None` because the grid is non-empty, and `place_a_word` crashes on
`b.direction` with an `AttributeError` — whichever direction the fallback
chose for the first word. -/
theorem c2_fallback_crashes_on_nonempty_grid :
    crossword [wordAB, wordCD] oracleA = .error .attributeError ∧
      crossword [wordAB, wordCD] oracleD = .error .attributeError := by
  exact ⟨rfl, rfl⟩

/-- C3: the claim says numbering completes and gives words sharing a start
position the same number.  On the code this is false: on the input
`["AB", "AC"]` the two words end up placed at the same start position
`(7, 7)` in the two orientations, and `sorted(self.word_list, key=lambda
w: w.start)` (line 124) then raises `TypeError`, because ordering two
`Bearing` keys with equal positions falls through to comparing
`Direction` enum members, which define no order — so numbering never
completes at all on exactly the shared-start-position case the claim
highlights.  This happens for either fallback direction of the first
word. -/
theorem c3_numbering_crashes_on_shared_start :
    (place_all [wordAB, wordAC] [] [] oracleA 0).map (fun r => r.2.map fun w => w.start)
        = .ok [some ⟨⟨7, 7⟩, .ACROSS⟩, some ⟨⟨7, 7⟩, .DOWN⟩] ∧
      crossword [wordAB, wordAC] oracleA = .error .typeError ∧
      crossword [wordAB, wordAC] oracleD = .error .typeError := by
  refine ⟨?_, ?_, ?_⟩ <;> rfl

/-- C4: the claim says only the commit of the single chosen candidate
writes `Word.start` and that dry-run validation does not mutate the Word.
On the code this is false: `place_a_word` executes `w.start = b`
(line 257) in dry-run mode too, so while placing "BA" against the grid
holding "AB", `start` is written once per passing candidate — here four
distinct bearings — before the commit writes the chosen one, i.e. `start`
is repeatedly reassigned to different values. -/
theorem c4_dry_run_writes_start :
    place_word_step [] wordAB oracleA 0 =
        .ok (gridAB, { wordAB with start := some ⟨⟨7, 7⟩, .ACROSS⟩ }) ∧
      start_write_trace gridAB wordBA oracleA 1 =
        [⟨⟨7, 8⟩, .DOWN⟩, ⟨⟨7, 8⟩, .ACROSS⟩, ⟨⟨6, 7⟩, .DOWN⟩, ⟨⟨7, 6⟩, .ACROSS⟩,
          ⟨⟨7, 8⟩, .DOWN⟩] ∧
      (⟨⟨7, 8⟩, .DOWN⟩ : Bearing) ≠ ⟨⟨7, 8⟩, .ACROSS⟩ := by
  refine ⟨rfl, rfl, by decide⟩

/-- C5: no letter collision is ever committed.  First part: a candidate
whose word letter differs from an existing nonempty cell letter at any
offset makes `place_a_word` raise `CellOccupiedError` (dry run and commit
replay the identical checks).  Second part: a commit that succeeds
preserves the letter of every existing lettered cell and writes exactly
the word's letters along the bearing, so every position occupied by two
placed words carries the single letter both words agree on.  The
hypothesis `hch` says the word's characters are normalized
(upper-case, non-whitespace), which holds for every constructed Word made
of real letters. -/
theorem c5_no_letter_collision (cells : Cells) (w : Word) (b : Bearing)
    (hch : ∀ l ∈ w.word, pyStrip (pyUpper [l]) = [l]) :
    (∀ i (hi : i < w.word.length) c,
        findCell cells (b.position + b.direction.mul i) = some c →
        c.letter ≠ [] → c.letter ≠ [w.word.get ⟨i, hi⟩] →
        place_a_word cells w b true = .error .cellOccupied) ∧
      (∀ cw w', place_a_word cells w b true = .ok (cw, w') →
        (∀ p c, findCell cells p = some c → c.letter ≠ [] →
            ∃ c', findCell cw p = some c' ∧ c'.letter = c.letter) ∧
          (∀ i (hi : i < w.word.length), ∃ c',
            findCell cw (b.position + b.direction.mul i) = some c' ∧
            c'.letter = [w.word.get ⟨i, hi⟩])) := by
  constructor
  · intro i hi c hfind hne hdiff
    have hrej := place_loop_reject b.position b.direction w.word cells 0 i hi c
      (by simpa using hfind) hne hdiff
    rw [place_a_word]
    rw [show (Bearing.mk b.position b.direction) = b from rfl] at hrej
    rw [hrej]
  · intro cw w' h
    have hpl : place_loop cells b w.word 0 = .ok cw := by
      cases hp : place_loop cells b w.word 0 with
      | error e =>
        rw [place_a_word, hp] at h
        cases h
      | ok cw₀ =>
        rw [place_a_word, hp] at h
        injection h with h'
        injection h' with h1 h2
        rw [show cw₀ = cw from h1]
    obtain ⟨P, Q⟩ := place_loop_ok_spec b cw w.word cells 0 hch hpl
    exact ⟨P, fun i hi => by simpa using Q i hi⟩

/-- Witness for C5: laying "CD" across at `(7, 7)` over the `A` cell is
rejected with `CellOccupiedError`, and committing "BA" down at `(7, 8)`
succeeds while preserving the letter `A` at `(7, 7)`. -/
theorem c5_no_letter_collision_witness :
    place_a_word gridAB wordCD ⟨⟨7, 7⟩, .ACROSS⟩ true = .error .cellOccupied ∧
      (∃ c', findCell gridABA ⟨7, 7⟩ = some c' ∧
        c'.letter = (⟨['A'], false, false, false, true, 0⟩ : Cell).letter) := by
  constructor
  · exact (c5_no_letter_collision gridAB wordCD ⟨⟨7, 7⟩, .ACROSS⟩ (by decide)).1 0
      (by decide) ⟨['A'], false, false, false, true, 0⟩ rfl (by decide) (by decide)
  · exact ((c5_no_letter_collision gridAB wordBA ⟨⟨7, 8⟩, .DOWN⟩ (by decide)).2 gridABA
      { wordBA with start := some ⟨⟨7, 8⟩, .DOWN⟩ } rfl).1 ⟨7, 7⟩
      ⟨['A'], false, false, false, true, 0⟩ rfl (by decide)

/-- C8 counterexample: the claim says the blank view has dimensions *and
default fill* identical to the solution view's.  On the finished crossword
built from `["AB", "BA"]` the unoccupied in-bounds entry at row 1,
column 0 is the default fill of each view, and the two differ: two spaces
in the solution view versus `"<>"` in the blank view. -/
theorem c8_counterexample_fill_differs :
    crossword [wordAB, wordBA] oracleA = .ok cwABBA ∧
      solution_only cwABBA = .ok solABBA ∧
      terminal_display cwABBA = .ok termABBA ∧
      (solABBA.getD 1 []).getD 0 [] ≠ (termABBA.getD 1 []).getD 0 [] := by
  refine ⟨rfl, rfl, rfl, by decide⟩

/-- C8 amended: the blank view has dimensions identical to the solution
view's, but the two default fills differ (two spaces versus `"<>"`); an
occupied unnumbered cell renders in the blank view as the opaque
placeholder `"[]"` revealing no letter, and a numbered cell renders as its
number in both views. -/
theorem c8_amended_views (st : CW) (S T : List (List (List Char))) (st' : CW)
    (mn mx : Position) (i j : Nat) (c : Cell)
    (h1 : solution_only st = .ok S) (h2 : terminal_display st = .ok T)
    (h3 : recenter st = .ok st') (h4 : extrema st'.cells = .ok (mn, mx))
    (hfree : ∀ pc ∈ st'.cells, ¬(pc.1.row.toNat = i ∧ pc.1.col.toNat = j))
    (hi : i < (mx.addInt 1).row.toNat) (hj : j < (mx.addInt 1).col.toNat) :
    S.length = T.length ∧
      (S.getD i []).length = (T.getD i []).length ∧
      (c.number = 0 → Cell.display c false = ['[', ']']) ∧
      (c.number ≠ 0 → Cell.display c true = Cell.display c false) ∧
      (S.getD i []).getD j [] = [' ', ' '] ∧
      (T.getD i []).getD j [] = ['<', '>'] := by
  simp only [solution_only, h3, h4] at h1
  simp only [terminal_display, h3, h4] at h2
  injection h1 with hS
  injection h2 with hT
  have hSlen : S.length = (mx.addInt 1).row.toNat := by
    rw [← hS, foldl_setGrid_length st'.cells (fun pc => pc.2.display true)]
    exact List.length_replicate _ _
  have hTlen : T.length = (mx.addInt 1).row.toNat := by
    rw [← hT, foldl_setGrid_length st'.cells (fun pc => pc.2.display false)]
    exact List.length_replicate _ _
  have hSrow : ∀ r ∈ S, r.length = (mx.addInt 1).col.toNat := by
    rw [← hS]
    apply foldl_setGrid_row_length st'.cells (fun pc => pc.2.display true)
    intro r hr
    rw [List.eq_of_mem_replicate hr]
    exact List.length_replicate _ _
  have hTrow : ∀ r ∈ T, r.length = (mx.addInt 1).col.toNat := by
    rw [← hT]
    apply foldl_setGrid_row_length st'.cells (fun pc => pc.2.display false)
    intro r hr
    rw [List.eq_of_mem_replicate hr]
    exact List.length_replicate _ _
  refine ⟨by rw [hSlen, hTlen], ?_, ?_, ?_, ?_, ?_⟩
  · rw [getD_length_of_shape S _ _ i hSlen hSrow hi,
      getD_length_of_shape T _ _ i hTlen hTrow hi]
  · intro h0
    simp [Cell.display, h0]
  · intro h0
    simp [Cell.display, h0]
  · rw [← hS, foldl_setGrid_entry st'.cells (fun pc => pc.2.display true) _ i j hfree]
    exact replicate_entry _ _ _ i j hi hj
  · rw [← hT, foldl_setGrid_entry st'.cells (fun pc => pc.2.display false) _ i j hfree]
    exact replicate_entry _ _ _ i j hi hj

/-- Witness for C8 at the `["AB", "BA"]` crossword, entry row 1 column 0,
and the unnumbered `A` cell. -/
theorem c8_amended_views_witness :
    solABBA.length = termABBA.length ∧
      (solABBA.getD 1 []).length = (termABBA.getD 1 []).length ∧
      ((⟨['A'], false, false, false, true, 0⟩ : Cell).number = 0 →
        Cell.display ⟨['A'], false, false, false, true, 0⟩ false = ['[', ']']) ∧
      ((⟨['A'], false, false, false, true, 0⟩ : Cell).number ≠ 0 →
        Cell.display ⟨['A'], false, false, false, true, 0⟩ true =
          Cell.display ⟨['A'], false, false, false, true, 0⟩ false) ∧
      (solABBA.getD 1 []).getD 0 [] = [' ', ' '] ∧
      (termABBA.getD 1 []).getD 0 [] = ['<', '>'] :=
  c8_amended_views cwABBA solABBA termABBA cwABBA' ⟨0, 0⟩ ⟨1, 1⟩ 1 0
    ⟨['A'], false, false, false, true, 0⟩ rfl rfl rfl rfl (by decide) (by decide) (by decide)

/-- C9: a Word whose normalized text (`upper` then `strip`, equivalently
trimmed-and-uppercased) has length below 2 fails construction with the
length error (`ValueError`, the spec's `WordTooShortError`); otherwise
construction succeeds with the normalized text, the trimmed hint, `start`
unset and `number` 0. -/
theorem c9_word_construction (text hint : List Char) (mandatory : Bool) :
    ((pyStrip (pyUpper text)).length < 2 →
        mkWord text hint mandatory = .error .valueError) ∧
      (2 ≤ (pyStrip (pyUpper text)).length →
        mkWord text hint mandatory =
          .ok ⟨pyStrip (pyUpper text), pyStrip hint, none, mandatory, 0⟩) := by
  constructor
  · intro h
    simp [mkWord, h]
  · intro h
    simp [mkWord, Nat.not_lt.mpr h]

/-- Witness for C9 at the concrete inputs "A" (too short) and " cAt "
(normalizes to "CAT"). -/
theorem c9_word_construction_witness :
    mkWord ['A'] ['h'] true = .error .valueError ∧
      mkWord [' ', 'c', 'A', 't', ' '] [' ', 'h', ' '] false =
        .ok ⟨['C', 'A', 'T'], ['h'], none, false, 0⟩ :=
  ⟨(c9_word_construction ['A'] ['h'] true).1 (by decide),
    (c9_word_construction [' ', 'c', 'A', 't', ' '] [' ', 'h', ' '] false).2 (by decide)⟩

/-- C10: a Crossword built from an empty word iterable has an empty grid
and an empty word list, and `extrema`, `recenter`, `solution_only` and
`terminal_display` all raise `IndexError` on it (the histogram lists are
empty, so `r[0]` fails) instead of returning an empty layout. -/
theorem c10_empty_crossword (o : Oracle) :
    crossword [] o = .ok ⟨[], []⟩ ∧
      extrema ([] : Cells) = .error .indexError ∧
      recenter ⟨[], []⟩ = .error .indexError ∧
      solution_only ⟨[], []⟩ = .error .indexError ∧
      terminal_display ⟨[], []⟩ = .error .indexError :=
  ⟨rfl, rfl, rfl, rfl, rfl⟩

end CwSpec
